import Mathlib

/-!
Verification development for the education platform's ingestion and hybrid
retrieval pipeline.  The definitions below are shallow embeddings of the
Python source:

- DocumentProcessor._create_chunks (backend/core/ai/document_processor.py),
  including the sentence split performed by
  re.split on the pattern of one Latin/CJK terminal-punctuation character
  followed by a whitespace run, with the separator captured.
- SimpleChromaStore and OptimizedChromaStore (backend/core/vector_db/),
  with the external embedding provider and the Chroma query backend taken
  as function parameters, and the Chroma collection modelled as an
  association list keyed by record id.
- create_knowledge_item / delete_knowledge_item (backend/api/knowledge.py)
  metadata and id handling.
- The metadata dictionaries of the format processors of
  DocumentProcessor (values that come from external parsing libraries are
  taken as parameters; the keys and the repository-computed values are
  concrete).

Text is modelled as List Char, Python dicts as functions from String to
Option PyVal (later keys of a dict literal win, mirrored by if-chains),
and numeric scores as Rat.
-/

/-- Values stored in the Python dictionaries that the claims inspect. -/
inductive PyVal where
  | str (s : String)
  | int (n : Int)
  | bool (b : Bool)
  | strList (l : List String)
  | null
deriving DecidableEq

/-- Python truthiness of an optional dictionary entry, as used by
expressions of the form `meta_data.get(key)` appearing in a condition. -/
def pyTruthy : Option PyVal → Bool
  | some (.str s) => s ≠ ""
  | some (.int n) => n ≠ 0
  | some (.bool b) => b
  | some (.strList l) => l ≠ []
  | some .null => false
  | none => false

/-! ## Chunker: DocumentProcessor._create_chunks -/

/-- The sentence-terminal punctuation characters of the regex
used by _create_chunks: CJK full stop, exclamation and question marks,
and their ASCII counterparts. -/
def isTerminal (c : Char) : Bool :=
  c = '。' ∨ c = '！' ∨ c = '？' ∨ c = '.' ∨ c = '!' ∨ c = '?'

/-- Whitespace as matched by the regex escape for whitespace in the
sentence-split pattern (ASCII whitespace plus NBSP and the ideographic
space). -/
def isPySpace (c : Char) : Bool :=
  c = ' ' ∨ c = '\t' ∨ c = '\n' ∨ c = '\r' ∨ c = '\x0b' ∨ c = '\x0c' ∨
  c = ' ' ∨ c = '　'

/-- Sentence units produced by the split: re.split with the captured
separator returns alternating text and separator pieces, and the loop of
_create_chunks glues each text piece to the separator that follows it.
This scanner produces those glued units directly: each unit is a maximal
run of text up to and including a terminal-punctuation character and its
trailing whitespace run; the trailing text piece (possibly empty) is the
final unit.  The mode flag says whether the scanner is inside the
whitespace run that follows a terminal character (the separator's
whitespace tail), in which case a character that ends the run also ends
the unit. -/
def splitUnitsGo (mode : Bool) (acc : List Char) : List Char → List (List Char)
  | [] => if mode then [acc, []] else [acc]
  | c :: rest =>
    if mode then
      if isPySpace c then splitUnitsGo true (acc ++ [c]) rest
      else if isTerminal c then acc :: splitUnitsGo true [c] rest
      else acc :: splitUnitsGo false [c] rest
    else
      if isTerminal c then splitUnitsGo true (acc ++ [c]) rest
      else splitUnitsGo false (acc ++ [c]) rest

/-- The sentence units of a text. -/
def splitUnits (text : List Char) : List (List Char) :=
  splitUnitsGo false [] text

/-- A chunk as produced by _create_chunks (content, chunk_index,
start_char, end_char).  The per-chunk metadata map only copies the
document metadata plus a constant chunk_method entry and is not modelled
as a field. -/
structure DocumentChunk where
  content : List Char
  chunk_index : Nat
  start_char : Nat
  end_char : Nat
deriving DecidableEq

/-- The loop state of _create_chunks: emitted chunks, the current
sentence buffer, current_size, chunk_index and start_char. -/
structure ChunkState where
  chunks : List DocumentChunk
  current : List (List Char)
  size : Nat
  idx : Nat
  start : Nat
deriving DecidableEq

/-- The text of a sentence buffer (the join performed when a chunk is
emitted). -/
def joinUnits (l : List (List Char)) : List Char := l.flatten

/-- The overlap computation of _create_chunks: walking the buffer from
its last sentence backwards, sentences are accumulated until their total
length reaches chunk_overlap; equivalently, the shortest suffix of the
buffer whose total length is at least chunk_overlap (the whole buffer if
its total length is below chunk_overlap). -/
def overlapSuffix (ov : Nat) : List (List Char) → List (List Char)
  | [] => []
  | u :: rest =>
    if ov ≤ (joinUnits rest).length then overlapSuffix ov rest else u :: rest

/-- One iteration of the sentence loop of _create_chunks for the
sentence unit s: if adding s would push current_size past chunk_size and
the buffer is non-empty, the buffer is emitted as a chunk and the buffer
restarts from the sentence-aligned overlap suffix (empty when
chunk_overlap is zero); in every case s is then appended to the
buffer. -/
def chunkStep (cs ov : Nat) (st : ChunkState) (s : List Char) : ChunkState :=
  if cs < st.size + s.length ∧ st.current ≠ [] then
    if 0 < ov then
      { chunks := st.chunks ++ [⟨joinUnits st.current, st.idx, st.start,
          st.start + (joinUnits st.current).length⟩]
        current := overlapSuffix ov st.current ++ [s]
        size := (joinUnits (overlapSuffix ov st.current)).length + s.length
        idx := st.idx + 1
        start := st.start + (joinUnits st.current).length -
          (joinUnits (overlapSuffix ov st.current)).length }
    else
      { chunks := st.chunks ++ [⟨joinUnits st.current, st.idx, st.start,
          st.start + (joinUnits st.current).length⟩]
        current := [s]
        size := s.length
        idx := st.idx + 1
        start := st.start + (joinUnits st.current).length }
  else
    { st with current := st.current ++ [s], size := st.size + s.length }

/-- The final flush of _create_chunks: a trailing non-empty buffer is
emitted as a last chunk. -/
def finishChunks (st : ChunkState) : List DocumentChunk :=
  if st.current = [] then st.chunks
  else st.chunks ++
    [⟨joinUnits st.current, st.idx, st.start,
      st.start + (joinUnits st.current).length⟩]

/-- The initial loop state of _create_chunks. -/
def initChunkState : ChunkState := ⟨[], [], 0, 0, 0⟩

/-- DocumentProcessor._create_chunks: split into sentence units, run the
accumulation loop, flush the remaining buffer. -/
def createChunks (text : List Char) (cs ov : Nat) : List DocumentChunk :=
  finishChunks ((splitUnits text).foldl (chunkStep cs ov) initChunkState)

/-- Reading a chunk list back: the content of each chunk minus the
region it shares with (carries back from) its predecessor, determined by
the recorded character offsets. -/
def reconstructFrom (prevEnd : Nat) : List DocumentChunk → List Char
  | [] => []
  | c :: rest =>
    c.content.drop (prevEnd - c.start_char) ++ reconstructFrom c.end_char rest

/-- Concatenation of the chunks in order with each carried-back overlap
region counted once. -/
def reconstructChunks (l : List DocumentChunk) : List Char :=
  reconstructFrom 0 l

/-- The end offset of the last chunk of a list (p when the list is
empty). -/
def endOfChunks (p : Nat) : List DocumentChunk → Nat
  | [] => p
  | c :: rest => endOfChunks c.end_char rest

/-! ## Vector store: SimpleChromaStore and OptimizedChromaStore

The external pieces are parameters: the DashScope embedding service is a
function from a batch of documents to either an error (a raised
exception) or one vector per document, and the Chroma collection is an
association list from record id to stored record.  V is the vector type
and M the metadata type of the records. -/

/-- A record of the collection: embedding, metadata, source document. -/
structure VectorRecord (V M : Type) where
  embedding : V
  metadata : M
  document : String
deriving DecidableEq

/-- A Chroma collection: records keyed by id. -/
abbrev Collection (V M : Type) : Type := List (String × VectorRecord V M)

/-- The ids present in a collection. -/
def colIds {V M : Type} (col : Collection V M) : List String :=
  col.map Prod.fst

/-- collection.count(). -/
def colCount {V M : Type} (col : Collection V M) : Nat := col.length

/-- Modelled from the spec: the storage operation behind
collection.add of the Chroma backend, whose source is not part of this
repository.  Per the spec's VectorIndex contract, add is an upsert: an
id that already exists is overwritten, a new id is appended. -/
def colUpsertOne {V M : Type} (col : Collection V M)
    (e : String × VectorRecord V M) : Collection V M :=
  if col.any (fun p => p.1 = e.1) then
    col.map (fun p => if p.1 = e.1 then e else p)
  else
    col ++ [e]

/-- Modelled from the spec: collection.add over a batch of entries. -/
def colAdd {V M : Type} (col : Collection V M)
    (es : List (String × VectorRecord V M)) : Collection V M :=
  es.foldl colUpsertOne col

/-- collection.delete(ids): remove the records with the given ids. -/
def colDelete {V M : Type} (col : Collection V M) (ids : List String) :
    Collection V M :=
  col.filter (fun p => ¬ p.1 ∈ ids)

/-- The id derivation of add_documents when the ids argument is None:
one MD5 hexadecimal digest per document text.  The digest function
itself is external (hashlib) and is a parameter. -/
def deriveIdsMD5 (md5Hex : String → String) (documents : List String) :
    List String :=
  documents.map md5Hex

/-- The records handed to collection.add for one batch: ids, documents
and metadatas sliced in parallel together with one embedding per
document. -/
def mkEntries {V M : Type} (bi bd : List String) (bm : List M)
    (embs : List V) : List (String × VectorRecord V M) :=
  (bi.zip (bd.zip (bm.zip embs))).map
    (fun q => (q.1, ⟨q.2.2.2, q.2.2.1, q.2.1⟩))

/-- The batch loop of OptimizedChromaStore.add_documents: each batch is
embedded and added; a failing embedding call re-raises, aborting the
remaining batches.  A zero batch size makes the Python range call raise
a ValueError before the first iteration. -/
def optAddGo {V M : Type}
    (embedBatch : List String → Except String (List V)) (bs : Nat)
    (docs : List String) (metas : List M) (ids : List String)
    (col : Collection V M) : Except String (Collection V M) :=
  if bs = 0 then .error "ValueError"
  else if docs = [] then .ok col
  else
    match embedBatch (docs.take bs) with
    | .error e => .error e
    | .ok embs =>
      optAddGo embedBatch bs (docs.drop bs) (metas.drop bs) (ids.drop bs)
        (colAdd col (mkEntries (ids.take bs) (docs.take bs) (metas.take bs) embs))
termination_by docs.length
decreasing_by
  rename_i hbs hd
  simp only [List.length_drop]
  have hpos : 0 < docs.length := List.length_pos.mpr hd
  omega

/-- OptimizedChromaStore.add_documents: derive ids when absent, then
run the batch loop (raising aborts the call). -/
def optimizedAddDocuments {V M : Type}
    (embedBatch : List String → Except String (List V))
    (md5Hex : String → String) (col : Collection V M)
    (documents : List String) (metadatas : List M)
    (ids : Option (List String)) (bs : Nat) :
    Except String (Collection V M) :=
  optAddGo embedBatch bs documents metadatas
    (ids.getD (deriveIdsMD5 md5Hex documents)) col

/-- The batch loop of SimpleChromaStore.add_documents: a failing
embedding call is logged and the loop continues with the next batch
instead of failing the whole call.  A zero batch size makes the Python
range call raise; the model returns the collection unchanged there, and
every theorem below uses a positive batch size. -/
def simpleAddGo {V M : Type}
    (embedBatch : List String → Except String (List V)) (bs : Nat)
    (docs : List String) (metas : List M) (ids : List String)
    (col : Collection V M) : Collection V M :=
  if bs = 0 then col
  else if docs = [] then col
  else
    match embedBatch (docs.take bs) with
    | .error _ =>
      simpleAddGo embedBatch bs (docs.drop bs) (metas.drop bs) (ids.drop bs) col
    | .ok embs =>
      simpleAddGo embedBatch bs (docs.drop bs) (metas.drop bs) (ids.drop bs)
        (colAdd col (mkEntries (ids.take bs) (docs.take bs) (metas.take bs) embs))
termination_by docs.length
decreasing_by
  all_goals
    rename_i hbs hd
    simp only [List.length_drop]
    have hpos : 0 < docs.length := List.length_pos.mpr hd
    omega

/-- SimpleChromaStore.add_documents: empty input returns at once;
otherwise ids are derived when absent, each metadata map is cleaned to
primitive values (the cleaning loop is the parameter cleanMeta), and the
batch loop runs.  The call returns None in Python; the model returns the
resulting collection state. -/
def simpleAddDocuments {V M : Type}
    (embedBatch : List String → Except String (List V))
    (md5Hex : String → String) (cleanMeta : M → M)
    (col : Collection V M) (documents : List String) (metadatas : List M)
    (ids : Option (List String)) (bs : Nat) : Collection V M :=
  if documents = [] then col
  else
    simpleAddGo embedBatch bs documents (metadatas.map cleanMeta)
      (ids.getD (deriveIdsMD5 md5Hex documents)) col

/-- The reply of collection.query: one inner list per query embedding
for each of the four fields. -/
structure QueryReply (M : Type) where
  documents : List (List String)
  metadatas : List (List M)
  distances : List (List Rat)
  ids : List (List String)
deriving DecidableEq

/-- The flattened reply built by the search methods out of the first
inner list of each field. -/
structure SearchFlat (M : Type) where
  documents : List String
  metadatas : List M
  distances : List Rat
  ids : List String
deriving DecidableEq

/-- The empty search reply returned on the degraded path. -/
def emptyFlat (M : Type) : SearchFlat M := ⟨[], [], [], []⟩

/-- Python indexing with 0 on a list: the first element, or an
IndexError when the list is empty. -/
def getZero {α : Type} : List α → Except String α
  | [] => .error "IndexError"
  | a :: _ => .ok a

/-- OptimizedChromaStore.search: embed the query, run the backend
query, take the first inner lists.  Any failure re-raises (the except
branch logs and raises again). -/
def optimizedSearch {V M : Type} (embed : String → Except String V)
    (backend : V → Nat → Except String (QueryReply M))
    (q : String) (n : Nat) : Except String (SearchFlat M) := do
  let v ← embed q
  let r ← backend v n
  let d ← getZero r.documents
  let m ← getZero r.metadatas
  let di ← getZero r.distances
  let i ← getZero r.ids
  pure ⟨d, m, di, i⟩

/-- SimpleChromaStore.search: same flow, but any failure (embedding,
backend, or indexing) is caught and an empty result set is returned; a
reply whose documents field is an empty list also short-circuits to the
empty result set. -/
def simpleSearch {V M : Type} (embed : String → Except String V)
    (backend : V → Nat → Except String (QueryReply M))
    (q : String) (n : Nat) : SearchFlat M :=
  match embed q with
  | .error _ => emptyFlat M
  | .ok v =>
    match backend v n with
    | .error _ => emptyFlat M
    | .ok r =>
      if r.documents = [] then emptyFlat M
      else
        match getZero r.documents, getZero r.metadatas,
              getZero r.distances, getZero r.ids with
        | .ok d, .ok m, .ok di, .ok i => ⟨d, m, di, i⟩
        | _, _, _, _ => emptyFlat M

/-! ## Hybrid search: OptimizedChromaStore.hybrid_search -/

/-- Python str.lower applied characterwise. -/
def pyLower (s : String) : String := String.mk (s.toList.map Char.toLower)

/-- The whitespace-run scanner behind Python str.split with no
separator argument: maximal non-whitespace runs, with no empty
pieces. -/
def splitWsChars (acc : List Char) : List Char → List (List Char)
  | [] => if acc = [] then [] else [acc]
  | c :: rest =>
    if isPySpace c then
      if acc = [] then splitWsChars [] rest
      else acc :: splitWsChars [] rest
    else splitWsChars (acc ++ [c]) rest

/-- Python str.split with no separator: split on whitespace runs,
discarding empty pieces. -/
def pySplitWs (s : String) : List String :=
  (splitWsChars [] s.toList).map (fun l => String.mk l)

/-- The unique lowercase whitespace tokens of a text (the Python set of
its lowercased split). -/
def keywordTokens (s : String) : List String :=
  (pySplitWs (pyLower s)).dedup

/-- The keyword score computed inside hybrid_search: the number of
query tokens appearing among the document tokens, divided by the number
of query tokens or one, whichever is larger. -/
def keywordScoreCode (qtoks : List String) (doc : String) : Rat :=
  ((qtoks.filter (fun t => t ∈ keywordTokens doc)).length : Rat) /
    (max qtoks.length 1 : Nat)

/-- The spec's wording of the same score: the size of the intersection
of the query tokens with the document tokens divided by the number of
query tokens. -/
def keywordScoreSpec (q doc : String) : Rat :=
  (((keywordTokens q).filter (fun t => t ∈ keywordTokens doc)).length : Rat) /
    ((keywordTokens q).length : Nat)

/-- A scored result of hybrid_search. -/
structure ScoredResult (M : Type) where
  content : String
  metadata : M
  score : Rat
  vector_score : Rat
  keyword_score : Rat
  id : String
deriving DecidableEq

/-- The scoring loop of hybrid_search: for each candidate index the
keyword score, the vector score one minus the reported distance, and
the fused score.  Iteration is driven by the documents list; a missing
entry in one of the parallel lists is a raised IndexError. -/
def scoreCandidates {M : Type} (qtoks : List String) (kb : Rat) :
    List String → List M → List Rat → List String →
    Except String (List (ScoredResult M))
  | [], _, _, _ => .ok []
  | d :: ds, m :: ms, x :: xs, i :: is => do
    let rest ← scoreCandidates qtoks kb ds ms xs is
    let ks := keywordScoreCode qtoks d
    let vs := 1 - x
    .ok (⟨d, m, (1 - kb) * vs + kb * ks, vs, ks, i⟩ :: rest)
  | _ :: _, _, _, _ => .error "IndexError"

/-- One insertion of the descending stable sort by fused score. -/
def insertDescBy {M : Type} (r : ScoredResult M) :
    List (ScoredResult M) → List (ScoredResult M)
  | [] => [r]
  | x :: xs => if r.score ≤ x.score then x :: insertDescBy r xs else r :: x :: xs

/-- The stable descending sort by fused score performed by list.sort
with reverse=True. -/
def sortDescByScore {M : Type} (l : List (ScoredResult M)) :
    List (ScoredResult M) :=
  l.foldl (fun acc r => insertDescBy r acc) []

/-- The default keyword_boost of hybrid_search. -/
def defaultKeywordBoost : Rat := 3 / 10

/-- OptimizedChromaStore.hybrid_search: vector search over twice the
requested result count, keyword scoring of each candidate, score
fusion, descending sort, truncation to the requested count. -/
def optimizedHybridSearch {V M : Type} (embed : String → Except String V)
    (backend : V → Nat → Except String (QueryReply M))
    (q : String) (n : Nat) (kb : Rat) :
    Except String (List (ScoredResult M)) := do
  let raw ← optimizedSearch embed backend q (n * 2)
  let scored ← scoreCandidates (keywordTokens q) kb
    raw.documents raw.metadatas raw.distances raw.ids
  pure ((sortDescByScore scored).take n)

/-! ## Collection initialization and reset -/

/-- Collection-level creation metadata. -/
structure CollectionData (V M : Type) where
  records : Collection V M
  cmeta : List (String × PyVal)
deriving DecidableEq

/-- The state of the persistent Chroma client: collections by name. -/
abbrev ClientState (V M : Type) : Type := List (String × CollectionData V M)

/-- client.delete_collection wrapped in try/except pass: removing an
absent collection is a no-op. -/
def deleteCollectionQuiet {V M : Type} (st : ClientState V M)
    (name : String) : ClientState V M :=
  st.filter (fun p => ¬ p.1 = name)

/-- client.create_collection with the given creation metadata. -/
def createCollection {V M : Type} (st : ClientState V M) (name : String)
    (cmeta : List (String × PyVal)) : ClientState V M :=
  st ++ [(name, ⟨[], cmeta⟩)]

/-- The creation metadata of OptimizedChromaStore._init_collection. -/
def optimizedCollectionMeta : List (String × PyVal) :=
  [("description", .str "教育平台知识库"),
   ("embedding_model", .str "dashscope-text-embedding-v3"),
   ("dimension", .int 1536)]

/-- The creation metadata of SimpleChromaStore._init_client. -/
def simpleCollectionMeta : List (String × PyVal) :=
  [("description", .str "教育平台知识库"),
   ("embedding_model", .str "dashscope-text-embedding-v3")]

/-- OptimizedChromaStore._init_collection: delete the old collection if
it exists, then create a fresh empty one. -/
def optimizedInitCollection {V M : Type} (st : ClientState V M)
    (name : String) : ClientState V M :=
  createCollection (deleteCollectionQuiet st name) name optimizedCollectionMeta

/-- SimpleChromaStore._init_client: get the existing collection; only
when that fails, create a new one. -/
def simpleInitClient {V M : Type} (st : ClientState V M)
    (name : String) : ClientState V M :=
  if (st.lookup name).isSome then st
  else createCollection st name simpleCollectionMeta

/-- The record count of a named collection of the client, when the
collection exists. -/
def clientCount {V M : Type} (st : ClientState V M) (name : String) :
    Option Nat :=
  (st.lookup name).map (fun c => colCount c.records)

/-! ## Knowledge API: create_knowledge_item and delete_knowledge_item -/

/-- The meta_data dictionary stored on the KnowledgeDocument database
record by create_knowledge_item (content, original_content, category,
tags, is_public, processed, word_count, page_count). -/
def createKnowledgeDocMetaData (extractedContent originalContent : String)
    (categoryId : PyVal) (tags : List String) (isPublic processed : Bool)
    (wordCount pageCount : Nat) : String → Option PyVal :=
  fun k =>
    if k = "content" then some (.str extractedContent)
    else if k = "original_content" then some (.str originalContent)
    else if k = "category" then some categoryId
    else if k = "tags" then some (.strList tags)
    else if k = "is_public" then some (.bool isPublic)
    else if k = "processed" then some (.bool processed)
    else if k = "word_count" then some (.int wordCount)
    else if k = "page_count" then some (.int pageCount)
    else none

/-- The vector-record id of chunk i of a knowledge document. -/
def chunkVectorId (docId i : Nat) : String :=
  "knowledge_doc_" ++ toString docId ++ "_chunk_" ++ toString i

/-- The vector-record ids written by create_knowledge_item for a
processed document with n chunks. -/
def createChunkVectorIds (docId n : Nat) : List String :=
  (List.range n).map (chunkVectorId docId)

/-- The per-chunk vector metadata written by create_knowledge_item,
with its chunk_index and total_chunks entries. -/
def chunkVectorMetadata (docId : Nat) (title : String) (categoryId : PyVal)
    (tags : String) (authorId : Nat) (isPublic : Bool) (i n : Nat) :
    String → Option PyVal :=
  fun k =>
    if k = "type" then some (.str "knowledge_document")
    else if k = "document_id" then some (.int docId)
    else if k = "title" then some (.str title)
    else if k = "category" then some categoryId
    else if k = "tags" then some (.str tags)
    else if k = "author_id" then some (.int authorId)
    else if k = "is_public" then some (.bool isPublic)
    else if k = "chunk_index" then some (.int i)
    else if k = "total_chunks" then some (.int n)
    else none

/-- meta_data.get with default 0, as read by delete_knowledge_item. -/
def getTotalChunks (m : String → Option PyVal) : Nat :=
  match m "total_chunks" with
  | some (.int n) => n.toNat
  | _ => 0

/-- The vector-record ids that delete_knowledge_item removes: the
whole-document id always, and the chunk ids reconstructed from the
stored total_chunks count when the document is marked processed and
that count is positive. -/
def deleteVectorIds (docId : Nat) (m : String → Option PyVal) :
    List String :=
  ("knowledge_doc_" ++ toString docId) ::
    (if pyTruthy (m "processed") ∧ 0 < getTotalChunks m then
      (List.range (getTotalChunks m)).map (chunkVectorId docId)
    else [])

/-! ## FormatExtractor metadata: the metadata dictionaries built by the
DocumentProcessor format processors.  Values computed by external
parsing libraries (chardet, PyPDF2, python-docx, python-pptx, openpyxl,
BeautifulSoup, ElementTree, the json module) are parameters; the keys
and the values computed in repository code are concrete. -/

/-- Counting the newline characters of a text, for the line_count
entry. -/
def countNewlines (content : List Char) : Nat :=
  (content.filter (fun c => c = '\n')).length

/-- The metadata of _process_text: detected encoding and line count,
and nothing else (in particular no format entry). -/
def processTextMetadata (encoding : String) (content : List Char) :
    String → Option PyVal :=
  fun k =>
    if k = "encoding" then some (.str encoding)
    else if k = "line_count" then some (.int (countNewlines content + 1))
    else none

/-- The metadata of _process_markdown: the text metadata merged under
format, headers, has_code_blocks and has_tables entries. -/
def processMarkdownMetadata (encoding : String) (content : List Char)
    (headers : List String) (hasCodeBlocks hasTables : Bool) :
    String → Option PyVal :=
  fun k =>
    if k = "format" then some (.str "markdown")
    else if k = "headers" then some (.strList headers)
    else if k = "has_code_blocks" then some (.bool hasCodeBlocks)
    else if k = "has_tables" then some (.bool hasTables)
    else processTextMetadata encoding content k

/-- The metadata of _process_pdf: format and pages always, page_count
once the reader is open, pdf_metadata when the reader reports document
metadata, ocr_used when the OCR fallback ran. -/
def processPdfMetadata (pageCount : Nat) (pdfMeta : Option PyVal)
    (pages : PyVal) (ocrUsed : Bool) : String → Option PyVal :=
  fun k =>
    if k = "format" then some (.str "pdf")
    else if k = "pages" then some pages
    else if k = "page_count" then some (.int pageCount)
    else if k = "pdf_metadata" then pdfMeta
    else if k = "ocr_used" then (if ocrUsed then some (.bool true) else none)
    else none

/-- The metadata of _process_docx. -/
def processDocxMetadata (paragraphCount tableCount : Nat)
    (sections properties : PyVal) : String → Option PyVal :=
  fun k =>
    if k = "format" then some (.str "docx")
    else if k = "paragraph_count" then some (.int paragraphCount)
    else if k = "table_count" then some (.int tableCount)
    else if k = "sections" then some sections
    else if k = "properties" then some properties
    else none

/-- The metadata of _process_doc: reading the file as text succeeds and
returns the text metadata (no format entry); only the failure path
returns the placeholder with a format and an error entry. -/
def processDocMetadata (readAsTextOk : Bool) (encoding : String)
    (content : List Char) : String → Option PyVal :=
  if readAsTextOk then processTextMetadata encoding content
  else fun k =>
    if k = "format" then some (.str "doc")
    else if k = "error" then some (.str "unsupported")
    else none

/-- The metadata of _process_pptx. -/
def processPptxMetadata (slideCount : Nat) (slides : PyVal) :
    String → Option PyVal :=
  fun k =>
    if k = "format" then some (.str "pptx")
    else if k = "slide_count" then some (.int slideCount)
    else if k = "slides" then some slides
    else none

/-- The metadata of _process_xlsx. -/
def processXlsxMetadata (sheetCount : Nat) (sheets : PyVal) :
    String → Option PyVal :=
  fun k =>
    if k = "format" then some (.str "xlsx")
    else if k = "sheet_count" then some (.int sheetCount)
    else if k = "sheets" then some sheets
    else none

/-- The metadata of _process_xls (always the unsupported
placeholder). -/
def processXlsMetadata : String → Option PyVal :=
  fun k =>
    if k = "format" then some (.str "xls")
    else if k = "error" then some (.str "unsupported")
    else none

/-- The metadata of _process_csv. -/
def processCsvMetadata (encoding : String) (rowCount : Nat) :
    String → Option PyVal :=
  fun k =>
    if k = "format" then some (.str "csv")
    else if k = "encoding" then some (.str encoding)
    else if k = "row_count" then some (.int rowCount)
    else none

/-- The metadata of _process_json. -/
def processJsonMetadata (keys : List String) (typeName : String) :
    String → Option PyVal :=
  fun k =>
    if k = "format" then some (.str "json")
    else if k = "keys" then some (.strList keys)
    else if k = "type" then some (.str typeName)
    else none

/-- The metadata of _process_html. -/
def processHtmlMetadata (title : String) (links images : Nat)
    (headers : List String) : String → Option PyVal :=
  fun k =>
    if k = "format" then some (.str "html")
    else if k = "title" then some (.str title)
    else if k = "links" then some (.int links)
    else if k = "images" then some (.int images)
    else if k = "headers" then some (.strList headers)
    else none

/-- The metadata of _process_xml. -/
def processXmlMetadata (rootTag : String) (namespaces : PyVal) :
    String → Option PyVal :=
  fun k =>
    if k = "format" then some (.str "xml")
    else if k = "root_tag" then some (.str rootTag)
    else if k = "namespaces" then some namespaces
    else none

/-! ## Derived descriptions used by the theorems -/

/-- The records that the batch loop of OptimizedChromaStore.add_documents
hands to the collection when every batch embeds successfully, or the
first raised error. -/
def optRunEntries {V M : Type}
    (embedBatch : List String → Except String (List V)) (bs : Nat)
    (docs : List String) (metas : List M) (ids : List String) :
    Except String (List (String × VectorRecord V M)) :=
  if bs = 0 then .error "ValueError"
  else if docs = [] then .ok []
  else
    match embedBatch (docs.take bs) with
    | .error e => .error e
    | .ok embs =>
      Except.map
        (fun es => mkEntries (ids.take bs) (docs.take bs) (metas.take bs) embs ++ es)
        (optRunEntries embedBatch bs (docs.drop bs) (metas.drop bs) (ids.drop bs))
termination_by docs.length
decreasing_by
  rename_i hbs hd
  simp only [List.length_drop]
  have hpos : 0 < docs.length := List.length_pos.mpr hd
  omega

/-- The records that the batch loop of SimpleChromaStore.add_documents
hands to the collection: the entries of the successfully embedded
batches in order, with failing batches skipped. -/
def simpleRunEntries {V M : Type}
    (embedBatch : List String → Except String (List V)) (bs : Nat)
    (docs : List String) (metas : List M) (ids : List String) :
    List (String × VectorRecord V M) :=
  if bs = 0 then []
  else if docs = [] then []
  else
    match embedBatch (docs.take bs) with
    | .error _ =>
      simpleRunEntries embedBatch bs (docs.drop bs) (metas.drop bs) (ids.drop bs)
    | .ok embs =>
      mkEntries (ids.take bs) (docs.take bs) (metas.take bs) embs ++
        simpleRunEntries embedBatch bs (docs.drop bs) (metas.drop bs) (ids.drop bs)
termination_by docs.length
decreasing_by
  all_goals
    rename_i hbs hd
    simp only [List.length_drop]
    have hpos : 0 < docs.length := List.length_pos.mpr hd
    omega

/-- The loop invariant of _create_chunks tying the state to the text
consumed so far: current_size is the buffer's length, chunk_index counts
the emitted chunks, the emitted indices are 0, 1, 2, ..., start_char sits
between the last emitted end offset minus the buffer and that end
offset, and the emitted chunks followed by the pending buffer read back
(overlap counted once) to the consumed text. -/
def ChunkInv (st : ChunkState) (consumed : List Char) : Prop :=
  st.size = (joinUnits st.current).length ∧
  st.idx = st.chunks.length ∧
  st.chunks.map DocumentChunk.chunk_index = List.range st.chunks.length ∧
  st.start ≤ endOfChunks 0 st.chunks ∧
  endOfChunks 0 st.chunks ≤ st.start + st.size ∧
  reconstructFrom 0 (st.chunks ++
    [⟨joinUnits st.current, st.idx, st.start,
      st.start + (joinUnits st.current).length⟩]) = consumed

/-- The loop invariant of _create_chunks in the no-overlap case, over a
set U of admissible sentence units: every emitted chunk fits within the
chunk size or consists of one sentence unit, and so does the pending
buffer. -/
def OversizedInv (cs : Nat) (U : List (List Char)) (st : ChunkState) : Prop :=
  (∀ c ∈ st.chunks, c.content.length ≤ cs ∨ c.content ∈ U) ∧
  (st.current = [] ∨ st.size ≤ cs ∨ ∃ u ∈ U, st.current = [u]) ∧
  st.size = (joinUnits st.current).length

/-! ## Collection lemmas -/

theorem colIds_upsertOne {V M : Type} (col : Collection V M)
    (e : String × VectorRecord V M) :
    colIds (colUpsertOne col e) =
      if e.1 ∈ colIds col then colIds col else colIds col ++ [e.1] := by
  unfold colUpsertOne colIds
  by_cases h : e.1 ∈ col.map Prod.fst
  · obtain ⟨p, hp, hpe⟩ := List.mem_map.mp h
    have hany : col.any (fun p => p.1 = e.1) = true := by
      rw [List.any_eq_true]
      exact ⟨p, hp, by simp [hpe]⟩
    rw [if_pos hany, if_pos h, List.map_map]
    apply List.map_congr_left
    intro q _
    by_cases hq : q.1 = e.1
    · simp [hq]
    · simp [hq]
  · have hany : col.any (fun p => p.1 = e.1) = false := by
      rw [List.any_eq_false]
      intro p hp
      simp only [decide_eq_true_eq]
      intro hpe
      exact h (List.mem_map.mpr ⟨p, hp, hpe⟩)
    rw [if_neg (by rw [hany]; simp), if_neg h, List.map_append]
    rfl

theorem mem_colIds_upsertOne {V M : Type} (col : Collection V M)
    (e : String × VectorRecord V M) (k : String) :
    k ∈ colIds (colUpsertOne col e) ↔ k = e.1 ∨ k ∈ colIds col := by
  rw [colIds_upsertOne]
  by_cases h : e.1 ∈ colIds col
  · rw [if_pos h]
    constructor
    · exact Or.inr
    · rintro (rfl | hk)
      · exact h
      · exact hk
  · rw [if_neg h, List.mem_append, List.mem_singleton]
    tauto

theorem colCount_upsertOne {V M : Type} (col : Collection V M)
    (e : String × VectorRecord V M) :
    colCount (colUpsertOne col e) =
      if e.1 ∈ colIds col then colCount col else colCount col + 1 := by
  have hlen : colCount (colUpsertOne col e) = (colIds (colUpsertOne col e)).length := by
    simp [colIds, colCount]
  rw [hlen, colIds_upsertOne]
  by_cases hm : e.1 ∈ colIds col
  · rw [if_pos hm, if_pos hm]
    simp [colIds, colCount]
  · rw [if_neg hm, if_neg hm]
    simp [colIds, colCount]

theorem nodup_colIds_upsertOne {V M : Type} (col : Collection V M)
    (e : String × VectorRecord V M) (h : (colIds col).Nodup) :
    (colIds (colUpsertOne col e)).Nodup := by
  rw [colIds_upsertOne]
  by_cases hm : e.1 ∈ colIds col
  · rwa [if_pos hm]
  · rw [if_neg hm]
    simpa [List.nodup_append] using ⟨h, hm⟩

theorem mem_colIds_colAdd {V M : Type}
    (es : List (String × VectorRecord V M)) :
    ∀ (col : Collection V M) (k : String),
      k ∈ colIds (colAdd col es) ↔ k ∈ colIds col ∨ k ∈ es.map Prod.fst := by
  induction es with
  | nil => intro col k; simp [colAdd]
  | cons e es ih =>
    intro col k
    show k ∈ colIds (colAdd (colUpsertOne col e) es) ↔ _
    rw [ih, mem_colIds_upsertOne]
    simp only [List.map_cons, List.mem_cons]
    tauto

theorem nodup_colIds_colAdd {V M : Type}
    (es : List (String × VectorRecord V M)) :
    ∀ col : Collection V M, (colIds col).Nodup →
      (colIds (colAdd col es)).Nodup := by
  induction es with
  | nil => intro col h; exact h
  | cons e es ih =>
    intro col h
    exact ih _ (nodup_colIds_upsertOne col e h)

theorem colCount_colAdd_of_mem {V M : Type}
    (es : List (String × VectorRecord V M)) :
    ∀ col : Collection V M, (∀ k ∈ es.map Prod.fst, k ∈ colIds col) →
      colCount (colAdd col es) = colCount col := by
  induction es with
  | nil => intro col _; rfl
  | cons e es ih =>
    intro col h
    have he : e.1 ∈ colIds col := h e.1 (by simp)
    show colCount (colAdd (colUpsertOne col e) es) = _
    rw [ih _ ?_, colCount_upsertOne, if_pos he]
    intro k hk
    rw [mem_colIds_upsertOne]
    exact Or.inr (h k (by simp [hk]))

theorem colAdd_append {V M : Type} (col : Collection V M)
    (a b : List (String × VectorRecord V M)) :
    colAdd col (a ++ b) = colAdd (colAdd col a) b := by
  unfold colAdd
  rw [List.foldl_append]

/-! ## Batch-loop characterizations -/

theorem optAddGo_eq_entries {V M : Type}
    (e : List String → Except String (List V)) (bs : Nat) :
    ∀ (n : Nat) (docs : List String), docs.length ≤ n →
      ∀ (metas : List M) (ids : List String) (col : Collection V M),
      optAddGo e bs docs metas ids col =
        Except.map (fun es => colAdd col es)
          (optRunEntries e bs docs metas ids) := by
  intro n
  induction n with
  | zero =>
    intro docs hd metas ids col
    have hnil : docs = [] := List.length_eq_zero.mp (Nat.le_zero.mp hd)
    subst hnil
    rw [optAddGo.eq_def, optRunEntries.eq_def]
    by_cases hbs : bs = 0
    · rw [if_pos hbs, if_pos hbs]
      rfl
    · rw [if_neg hbs, if_neg hbs, if_pos rfl, if_pos rfl]
      rfl
  | succ n ih =>
    intro docs hd metas ids col
    rw [optAddGo.eq_def, optRunEntries.eq_def]
    by_cases hbs : bs = 0
    · rw [if_pos hbs, if_pos hbs]
      rfl
    · rw [if_neg hbs, if_neg hbs]
      by_cases hd0 : docs = []
      · rw [if_pos hd0, if_pos hd0]
        rfl
      · rw [if_neg hd0, if_neg hd0]
        have hlen : (docs.drop bs).length ≤ n := by
          simp only [List.length_drop]
          have hpos : 0 < docs.length := List.length_pos.mpr hd0
          omega
        cases he : e (docs.take bs) with
        | error err => rfl
        | ok embs =>
          simp only []
          rw [ih (docs.drop bs) hlen]
          cases hR : optRunEntries e bs (docs.drop bs) (metas.drop bs)
              (ids.drop bs) with
          | error err2 => rfl
          | ok es => exact congrArg Except.ok (colAdd_append col _ es).symm

theorem optimizedAddDocuments_eq {V M : Type}
    (e : List String → Except String (List V)) (md5Hex : String → String)
    (col : Collection V M) (documents : List String) (metadatas : List M)
    (ids : Option (List String)) (bs : Nat) :
    optimizedAddDocuments e md5Hex col documents metadatas ids bs =
      Except.map (fun es => colAdd col es)
        (optRunEntries e bs documents metadatas
          (ids.getD (deriveIdsMD5 md5Hex documents))) := by
  unfold optimizedAddDocuments
  exact optAddGo_eq_entries e bs documents.length documents le_rfl _ _ _

theorem simpleAddGo_eq_entries {V M : Type}
    (e : List String → Except String (List V)) (bs : Nat) :
    ∀ (n : Nat) (docs : List String), docs.length ≤ n →
      ∀ (metas : List M) (ids : List String) (col : Collection V M),
      simpleAddGo e bs docs metas ids col =
        colAdd col (simpleRunEntries e bs docs metas ids) := by
  intro n
  induction n with
  | zero =>
    intro docs hd metas ids col
    have hnil : docs = [] := List.length_eq_zero.mp (Nat.le_zero.mp hd)
    subst hnil
    rw [simpleAddGo.eq_def, simpleRunEntries.eq_def]
    by_cases hbs : bs = 0
    · rw [if_pos hbs, if_pos hbs]
      rfl
    · rw [if_neg hbs, if_neg hbs, if_pos rfl, if_pos rfl]
      rfl
  | succ n ih =>
    intro docs hd metas ids col
    rw [simpleAddGo.eq_def, simpleRunEntries.eq_def]
    by_cases hbs : bs = 0
    · rw [if_pos hbs, if_pos hbs]
      rfl
    · rw [if_neg hbs, if_neg hbs]
      by_cases hd0 : docs = []
      · rw [if_pos hd0, if_pos hd0]
        rfl
      · rw [if_neg hd0, if_neg hd0]
        have hlen : (docs.drop bs).length ≤ n := by
          simp only [List.length_drop]
          have hpos : 0 < docs.length := List.length_pos.mpr hd0
          omega
        cases he : e (docs.take bs) with
        | error err =>
          simp only []
          rw [ih (docs.drop bs) hlen]
        | ok embs =>
          simp only []
          rw [ih (docs.drop bs) hlen, colAdd_append]

/-! ## Claim theorems -/

/-- C1: create_knowledge_item writes chunk records with ids
knowledge_doc_{doc_id}_chunk_{0..N-1} and records total_chunks = N only
inside each chunk's vector metadata; the document's database meta_data
dictionary has no total_chunks entry, so delete_knowledge_item, which
reconstructs chunk ids from meta_data.get with key total_chunks and
default 0, deletes no chunk record at all.  Shown at the concrete
failing input: document id 7 ingested with one chunk. -/
theorem create_delete_total_chunks_bug :
    createChunkVectorIds 7 1 = ["knowledge_doc_7_chunk_0"] ∧
    chunkVectorMetadata 7 "title" PyVal.null "" 1 true 0 1 "total_chunks"
      = some (.int 1) ∧
    createKnowledgeDocMetaData "c" "c" PyVal.null [] true true 2 0
      "total_chunks" = none ∧
    deleteVectorIds 7 (createKnowledgeDocMetaData "c" "c" PyVal.null [] true true 2 0)
      = ["knowledge_doc_7"] ∧
    "knowledge_doc_7_chunk_0" ∉
      deleteVectorIds 7
        (createKnowledgeDocMetaData "c" "c" PyVal.null [] true true 2 0) := by
  refine ⟨rfl, rfl, rfl, ?_, ?_⟩
  · rfl
  · decide

/-- C3 counterexample: a failing embedding call makes
OptimizedChromaStore.search and hybrid_search re-raise instead of
returning an empty result set. -/
theorem optimized_search_propagates_failure :
    optimizedSearch (V := Unit) (M := Unit)
      (fun _ => Except.error "embedding failure")
      (fun _ _ => Except.error "backend failure") "query" 5
      = Except.error "embedding failure" ∧
    optimizedHybridSearch (V := Unit) (M := Unit)
      (fun _ => Except.error "embedding failure")
      (fun _ _ => Except.error "backend failure") "query" 5 defaultKeywordBoost
      = Except.error "embedding failure" ∧
    (Except.error "embedding failure" :
      Except String (SearchFlat Unit)) ≠ Except.ok (emptyFlat Unit) := by
  refine ⟨rfl, rfl, ?_⟩
  intro h
  exact Except.noConfusion h

/-- C3 amended: SimpleChromaStore.search returns the empty result set
when the embedding call fails or when the backend query fails, instead
of raising (OptimizedChromaStore.search and hybrid_search propagate the
exception instead, as the counterexample shows). -/
theorem simple_search_degrades_to_empty {V M : Type}
    (embed : String → Except String V)
    (backend : V → Nat → Except String (QueryReply M))
    (q : String) (n : Nat) :
    (∀ err, embed q = .error err →
      simpleSearch embed backend q n = emptyFlat M) ∧
    (∀ v err, embed q = .ok v → backend v n = .error err →
      simpleSearch embed backend q n = emptyFlat M) := by
  constructor
  · intro err he
    simp [simpleSearch, he]
  · intro v err hv hb
    simp [simpleSearch, hv, hb]

/-- Witness for the C3 amended theorem at a concrete failing embedder. -/
theorem simple_search_degrades_to_empty_witness :
    simpleSearch (V := Unit) (M := Unit) (fun _ => Except.error "down")
      (fun _ _ => Except.error "db down") "query" 5 = emptyFlat Unit :=
  (simple_search_degrades_to_empty (fun _ => Except.error "down")
    (fun _ _ => Except.error "db down") "query" 5).1 "down" rfl

/-- C4 counterexample: constructing OptimizedChromaStore deletes and
recreates the collection, so opening a store over an existing persisted
collection with one record leaves it with zero records. -/
theorem optimized_init_drops_collection :
    clientCount (V := Unit) (M := Unit)
      [("education_knowledge",
        ⟨[("doc1", ⟨(), (), "text"⟩)], optimizedCollectionMeta⟩)]
      "education_knowledge" = some 1 ∧
    clientCount
      (optimizedInitCollection (V := Unit) (M := Unit)
        [("education_knowledge",
          ⟨[("doc1", ⟨(), (), "text"⟩)], optimizedCollectionMeta⟩)]
        "education_knowledge")
      "education_knowledge" = some 0 := by
  constructor <;> rfl

/-- C4 amended: constructing SimpleChromaStore over an existing
collection leaves the client state, hence the collection's records and
count, unchanged; only OptimizedChromaStore drops and recreates the
collection during initialization. -/
theorem simple_init_preserves_collection {V M : Type}
    (st : ClientState V M) (name : String) (c : CollectionData V M)
    (h : st.lookup name = some c) :
    simpleInitClient st name = st := by
  simp [simpleInitClient, h]

/-- Witness for the C4 amended theorem on a one-collection client. -/
theorem simple_init_preserves_collection_witness :
    simpleInitClient (V := Unit) (M := Unit)
      [("education_knowledge",
        ⟨[("doc1", ⟨(), (), "text"⟩)], simpleCollectionMeta⟩)]
      "education_knowledge"
      = [("education_knowledge",
          ⟨[("doc1", ⟨(), (), "text"⟩)], simpleCollectionMeta⟩)] :=
  simple_init_preserves_collection _ "education_knowledge"
    ⟨[("doc1", ⟨(), (), "text"⟩)], simpleCollectionMeta⟩ rfl

/-- C9 counterexample: the metadata returned by _process_text for a
plain-text input has encoding and line_count entries but no format
entry. -/
theorem text_metadata_missing_format :
    processTextMetadata "utf-8" "hello".toList "format" = none ∧
    processTextMetadata "utf-8" "hello".toList "encoding"
      = some (.str "utf-8") ∧
    processTextMetadata "utf-8" "hello".toList "line_count"
      = some (.int 1) := by
  refine ⟨rfl, rfl, ?_⟩
  decide

/-- C9 amended: every format processor except _process_text includes a
format entry in its metadata: markdown, pdf, docx, the doc fallback
path, pptx, xlsx, xls, csv, json, html and xml all set it, while .txt
(and the .doc success path, which delegates to _process_text) does
not. -/
theorem format_key_other_processors :
    (∀ enc content headers hc ht,
      processMarkdownMetadata enc content headers hc ht "format"
        = some (.str "markdown")) ∧
    (∀ pc pm pg ocr,
      processPdfMetadata pc pm pg ocr "format" = some (.str "pdf")) ∧
    (∀ pc tc s p,
      processDocxMetadata pc tc s p "format" = some (.str "docx")) ∧
    (∀ enc content,
      processDocMetadata false enc content "format" = some (.str "doc")) ∧
    (∀ enc content,
      processDocMetadata true enc content "format" = none) ∧
    (∀ sc s, processPptxMetadata sc s "format" = some (.str "pptx")) ∧
    (∀ sc s, processXlsxMetadata sc s "format" = some (.str "xlsx")) ∧
    processXlsMetadata "format" = some (.str "xls") ∧
    (∀ enc rc, processCsvMetadata enc rc "format" = some (.str "csv")) ∧
    (∀ ks tn, processJsonMetadata ks tn "format" = some (.str "json")) ∧
    (∀ t l i h, processHtmlMetadata t l i h "format" = some (.str "html")) ∧
    (∀ rt ns, processXmlMetadata rt ns "format" = some (.str "xml")) := by
  refine ⟨?_, ?_, ?_, ?_, ?_, ?_, ?_, ?_, ?_, ?_, ?_, ?_⟩ <;> intros <;> rfl

/-- C10: with the ids argument omitted, each record's id is the digest
of its document text, so equal texts get equal ids at any two positions
of the input; the collection never stores two records with the same id
(its id list stays duplicate-free under add), and re-adding a text
whose digest id is already present overwrites in place, leaving the
record count unchanged. -/
theorem derived_ids_md5_dedup (md5Hex : String → String)
    (documents : List String) (i j : Nat)
    (heq : documents[i]? = documents[j]?) :
    (deriveIdsMD5 md5Hex documents)[i]? = (deriveIdsMD5 md5Hex documents)[j]? ∧
    (∀ (V M : Type) (col : Collection V M)
      (es : List (String × VectorRecord V M)),
      (colIds col).Nodup → (colIds (colAdd col es)).Nodup) ∧
    (∀ (V M : Type) (col : Collection V M) (r : VectorRecord V M)
      (d : String), md5Hex d ∈ colIds col →
      colCount (colUpsertOne col (md5Hex d, r)) = colCount col) := by
  refine ⟨?_, ?_, ?_⟩
  · simp only [deriveIdsMD5, List.getElem?_map, heq]
  · intro V M col es h
    exact nodup_colIds_colAdd es col h
  · intro V M col r d hmem
    rw [colCount_upsertOne, if_pos hmem]

/-- Witness for C10 at a document list with a duplicated text. -/
theorem derived_ids_md5_dedup_witness :
    (deriveIdsMD5 (fun s => s ++ "-digest") ["a", "b", "a"])[0]?
      = (deriveIdsMD5 (fun s => s ++ "-digest") ["a", "b", "a"])[2]? :=
  (derived_ids_md5_dedup (fun s => s ++ "-digest") ["a", "b", "a"] 0 2 rfl).1

/-- C2 counterexample: when the embedding call for the first of two
single-document batches fails, OptimizedChromaStore.add_documents
re-raises immediately — the run aborts instead of continuing with the
remaining batch, and its outcome is a raised exception, not a summary
dictionary. -/
theorem optimized_add_aborts_on_batch_failure :
    optimizedAddDocuments (V := Unit) (M := Unit)
      (fun b => if b = ["d1"] then Except.error "embedding failure"
        else Except.ok (b.map (fun _ => ())))
      (fun s => s) [] ["d1", "d2"] [(), ()] (some ["i1", "i2"]) 1
      = Except.error "embedding failure" := by
  rw [optimizedAddDocuments, optAddGo.eq_def]
  norm_num
  exact fun h => absurd h (by decide)

/-- C2 amended: SimpleChromaStore.add_documents logs a failing batch
and continues with the remaining batches — its collection effect is
exactly the fold of the successfully embedded batches' records, a
failing first batch is skipped, and the call never raises (it returns
None; no {indexed_count, total, errors} summary exists); by contrast
OptimizedChromaStore.add_documents re-raises the first failing batch's
error, aborting the run. -/
theorem simple_add_batch_failure_isolation {V M : Type}
    (e : List String → Except String (List V)) (md5Hex : String → String)
    (cleanMeta : M → M) (bs : Nat) (documents : List String)
    (metadatas : List M) (ids : Option (List String))
    (col : Collection V M) (err : String) (hbs : bs ≠ 0) :
    simpleAddDocuments e md5Hex cleanMeta col documents metadatas ids bs
      = colAdd col
          (simpleRunEntries e bs documents (metadatas.map cleanMeta)
            (ids.getD (deriveIdsMD5 md5Hex documents))) ∧
    (∀ (ms : List M) (is : List String), documents ≠ [] →
      e (documents.take bs) = .error err →
      simpleRunEntries e bs documents ms is
        = simpleRunEntries e bs (documents.drop bs) (ms.drop bs) (is.drop bs)) ∧
    (∀ (ms : List M) (is : List String) (c : Collection V M),
      documents ≠ [] → e (documents.take bs) = .error err →
      optAddGo e bs documents ms is c = .error err) := by
  refine ⟨?_, ?_, ?_⟩
  · unfold simpleAddDocuments
    by_cases hd0 : documents = []
    · rw [if_pos hd0]
      subst hd0
      rw [simpleRunEntries.eq_def, if_neg hbs, if_pos rfl]
      rfl
    · rw [if_neg hd0]
      exact simpleAddGo_eq_entries e bs documents.length documents le_rfl _ _ col
  · intro ms is hd0 he
    rw [simpleRunEntries.eq_def, if_neg hbs, if_neg hd0, he]
  · intro ms is c hd0 he
    rw [optAddGo.eq_def, if_neg hbs, if_neg hd0, he]

/-- Witness for the C2 amended theorem: the failing first batch makes
the optimized loop abort with the raised error. -/
theorem simple_add_batch_failure_isolation_witness :
    optAddGo (V := Unit) (M := Unit)
      (fun b => if b = ["d1"] then Except.error "embedding failure"
        else Except.ok (b.map (fun _ => ())))
      1 ["d1", "d2"] [(), ()] ["i1", "i2"] []
      = Except.error "embedding failure" :=
  (simple_add_batch_failure_isolation
      (fun b => if b = ["d1"] then Except.error "embedding failure"
        else Except.ok (b.map (fun _ => ())))
      (fun s => s) (fun m => m) 1 ["d1", "d2"] [(), ()] (some ["i1", "i2"])
      [] "embedding failure" (by decide)).2.2
    [(), ()] ["i1", "i2"] [] (by decide) rfl

/-- C8: re-running OptimizedChromaStore.add_documents with the same
inputs against the collection produced by a first successful run
succeeds and leaves count() unchanged: the second run's records carry
the same ids (derived or supplied), all already present, and the
spec-modelled upsert overwrites them in place without duplication. -/
theorem add_documents_idempotent_reingestion {V M : Type}
    (e : List String → Except String (List V)) (md5Hex : String → String)
    (col col1 : Collection V M) (documents : List String)
    (metadatas : List M) (ids : Option (List String)) (bs : Nat)
    (h1 : optimizedAddDocuments e md5Hex col documents metadatas ids bs
      = .ok col1) :
    ∃ col2,
      optimizedAddDocuments e md5Hex col1 documents metadatas ids bs
        = .ok col2 ∧ colCount col2 = colCount col1 := by
  rw [optimizedAddDocuments_eq] at h1
  rw [optimizedAddDocuments_eq]
  cases hR : optRunEntries e bs documents metadatas
      (ids.getD (deriveIdsMD5 md5Hex documents)) with
  | error err =>
    rw [hR] at h1
    exact absurd h1 (by simp [Except.map])
  | ok es =>
    rw [hR] at h1
    have hc : colAdd col es = col1 := by
      simpa [Except.map] using h1
    refine ⟨colAdd col1 es, rfl, ?_⟩
    apply colCount_colAdd_of_mem
    intro k hk
    rw [← hc]
    exact (mem_colIds_colAdd es col k).mpr (Or.inr hk)

/-- Witness for C8: ingesting the documents a and b twice leaves the
two-record collection with count two. -/
theorem add_documents_idempotent_reingestion_witness :
    ∃ col2,
      optimizedAddDocuments (V := Unit) (M := Unit)
        (fun b => Except.ok (b.map (fun _ => ())))
        (fun s => s)
        [("a", ⟨(), (), "a"⟩), ("b", ⟨(), (), "b"⟩)]
        ["a", "b"] [(), ()] none 10
        = Except.ok col2 ∧
      colCount col2
        = colCount (V := Unit) (M := Unit)
            [("a", ⟨(), (), "a"⟩), ("b", ⟨(), (), "b"⟩)] :=
  add_documents_idempotent_reingestion
    (fun b => Except.ok (b.map (fun _ => ())))
    (fun s => s) [] [("a", ⟨(), (), "a"⟩), ("b", ⟨(), (), "b"⟩)]
    ["a", "b"] [(), ()] none 10
    (by
      rw [optimizedAddDocuments, optAddGo.eq_def]
      norm_num
      rw [optAddGo.eq_def]
      norm_num
      rw [if_neg (by decide)]
      rfl)

/-! ## Chunker lemmas -/

theorem joinUnits_append (l : List (List Char)) (s : List Char) :
    joinUnits (l ++ [s]) = joinUnits l ++ s := by
  simp [joinUnits]

theorem joinUnits_cons (u : List Char) (l : List (List Char)) :
    joinUnits (u :: l) = u ++ joinUnits l := by
  simp [joinUnits]

theorem joinUnits_splitUnitsGo :
    ∀ (l : List Char) (mode : Bool) (acc : List Char),
      joinUnits (splitUnitsGo mode acc l) = acc ++ l := by
  intro l
  induction l with
  | nil =>
    intro mode acc
    cases mode <;> simp [splitUnitsGo, joinUnits]
  | cons c rest ih =>
    intro mode acc
    cases mode with
    | false =>
      by_cases h2 : isTerminal c
      · simp [splitUnitsGo, h2, ih]
      · simp [splitUnitsGo, h2, ih]
    | true =>
      by_cases h1 : isPySpace c
      · simp [splitUnitsGo, h1, ih]
      · by_cases h2 : isTerminal c
        · simp [splitUnitsGo, h1, h2, ih, joinUnits_cons]
        · simp [splitUnitsGo, h1, h2, ih, joinUnits_cons]

theorem joinUnits_splitUnits (text : List Char) :
    joinUnits (splitUnits text) = text := by
  simpa using joinUnits_splitUnitsGo text false []

theorem overlapSuffix_isSuffix (ov : Nat) :
    ∀ l : List (List Char), ∃ p, p ++ overlapSuffix ov l = l := by
  intro l
  induction l with
  | nil => exact ⟨[], rfl⟩
  | cons u rest ih =>
    by_cases h : ov ≤ (joinUnits rest).length
    · obtain ⟨p, hp⟩ := ih
      exact ⟨u :: p, by simp [overlapSuffix, h, hp]⟩
    · exact ⟨[], by simp [overlapSuffix, h]⟩

theorem joinUnits_overlapSuffix_le (ov : Nat) (l : List (List Char)) :
    (joinUnits (overlapSuffix ov l)).length ≤ (joinUnits l).length := by
  obtain ⟨p, hp⟩ := overlapSuffix_isSuffix ov l
  have hsplit : joinUnits l = joinUnits p ++ joinUnits (overlapSuffix ov l) := by
    conv_lhs => rw [← hp]
    simp [joinUnits]
  rw [hsplit, List.length_append]
  exact Nat.le_add_left _ _

theorem endOfChunks_append (p : Nat) (l : List DocumentChunk)
    (c : DocumentChunk) : endOfChunks p (l ++ [c]) = c.end_char := by
  induction l generalizing p with
  | nil => rfl
  | cons d rest ih => exact ih d.end_char

theorem reconstructFrom_append (p : Nat) (l : List DocumentChunk)
    (c : DocumentChunk) :
    reconstructFrom p (l ++ [c]) =
      reconstructFrom p l ++ c.content.drop (endOfChunks p l - c.start_char) := by
  induction l generalizing p with
  | nil => simp [reconstructFrom, endOfChunks]
  | cons d rest ih =>
    show d.content.drop (p - d.start_char) ++
        reconstructFrom d.end_char (rest ++ [c]) = _
    rw [ih d.end_char]
    simp [reconstructFrom, endOfChunks, List.append_assoc]

theorem chunkStep_inv (cs ov : Nat) (st : ChunkState) (consumed s : List Char)
    (h : ChunkInv st consumed) :
    ChunkInv (chunkStep cs ov st s) (consumed ++ s) := by
  obtain ⟨h1, h2, h3, h4, h5, h6⟩ := h
  have h6' : reconstructFrom 0 st.chunks ++
      (joinUnits st.current).drop (endOfChunks 0 st.chunks - st.start)
        = consumed := by
    rw [reconstructFrom_append] at h6
    exact h6
  unfold chunkStep
  by_cases hcond : cs < st.size + s.length ∧ st.current ≠ []
  · rw [if_pos hcond]
    have hosle : (joinUnits (overlapSuffix ov st.current)).length ≤
        (joinUnits st.current).length := joinUnits_overlapSuffix_le ov st.current
    by_cases hov : 0 < ov
    · rw [if_pos hov]
      refine ⟨?_, ?_, ?_, ?_, ?_, ?_⟩
      · show (joinUnits (overlapSuffix ov st.current)).length + s.length
          = (joinUnits (overlapSuffix ov st.current ++ [s])).length
        rw [joinUnits_append, List.length_append]
      · show st.idx + 1 = (st.chunks ++ [_]).length
        simp [h2]
      · show (st.chunks ++ [_]).map DocumentChunk.chunk_index
          = List.range ((st.chunks ++ [_]).length)
        rw [List.map_append, List.length_append, h3]
        simp [h2, List.range_succ]
      · show st.start + (joinUnits st.current).length -
            (joinUnits (overlapSuffix ov st.current)).length ≤
          endOfChunks 0 (st.chunks ++ [_])
        rw [endOfChunks_append]
        exact Nat.sub_le _ _
      · show endOfChunks 0 (st.chunks ++ [_]) ≤
          st.start + (joinUnits st.current).length -
            (joinUnits (overlapSuffix ov st.current)).length +
          ((joinUnits (overlapSuffix ov st.current)).length + s.length)
        rw [endOfChunks_append]
        show st.start + (joinUnits st.current).length ≤ _
        omega
      · show reconstructFrom 0 ((st.chunks ++ [_]) ++ [_]) = consumed ++ s
        rw [reconstructFrom_append, reconstructFrom_append, endOfChunks_append]
        have harith : st.start + (joinUnits st.current).length -
            (st.start + (joinUnits st.current).length -
              (joinUnits (overlapSuffix ov st.current)).length)
            = (joinUnits (overlapSuffix ov st.current)).length := by
          omega
        show reconstructFrom 0 st.chunks ++
            (joinUnits st.current).drop (endOfChunks 0 st.chunks - st.start) ++
            (joinUnits (overlapSuffix ov st.current ++ [s])).drop _ = consumed ++ s
        rw [h6', joinUnits_append, harith, List.drop_left]
    · rw [if_neg hov]
      refine ⟨?_, ?_, ?_, ?_, ?_, ?_⟩
      · show s.length = (joinUnits [s]).length
        simp [joinUnits]
      · show st.idx + 1 = (st.chunks ++ [_]).length
        simp [h2]
      · show (st.chunks ++ [_]).map DocumentChunk.chunk_index
          = List.range ((st.chunks ++ [_]).length)
        rw [List.map_append, List.length_append, h3]
        simp [h2, List.range_succ]
      · show st.start + (joinUnits st.current).length ≤
          endOfChunks 0 (st.chunks ++ [_])
        rw [endOfChunks_append]
      · show endOfChunks 0 (st.chunks ++ [_]) ≤
          st.start + (joinUnits st.current).length + s.length
        rw [endOfChunks_append]
        show st.start + (joinUnits st.current).length ≤ _
        omega
      · show reconstructFrom 0 ((st.chunks ++ [_]) ++ [_]) = consumed ++ s
        rw [reconstructFrom_append, reconstructFrom_append, endOfChunks_append]
        show reconstructFrom 0 st.chunks ++
            (joinUnits st.current).drop (endOfChunks 0 st.chunks - st.start) ++
            (joinUnits [s]).drop
              (st.start + (joinUnits st.current).length -
                (st.start + (joinUnits st.current).length)) = consumed ++ s
        rw [h6', Nat.sub_self]
        simp [joinUnits]
  · rw [if_neg hcond]
    have hdist : (joinUnits st.current ++ s).drop
        (endOfChunks 0 st.chunks - st.start)
        = (joinUnits st.current).drop (endOfChunks 0 st.chunks - st.start)
          ++ s := by
      apply List.drop_append_of_le_length
      omega
    refine ⟨?_, ?_, ?_, h4, ?_, ?_⟩
    · show st.size + s.length = (joinUnits (st.current ++ [s])).length
      rw [joinUnits_append, List.length_append, h1]
    · exact h2
    · exact h3
    · show endOfChunks 0 st.chunks ≤ st.start + (st.size + s.length)
      omega
    · show reconstructFrom 0 (st.chunks ++ [_]) = consumed ++ s
      rw [reconstructFrom_append]
      show reconstructFrom 0 st.chunks ++
          (joinUnits (st.current ++ [s])).drop
            (endOfChunks 0 st.chunks - st.start) = consumed ++ s
      rw [joinUnits_append, hdist, ← List.append_assoc, h6']

theorem foldl_chunkStep_inv (cs ov : Nat) :
    ∀ (units : List (List Char)) (st : ChunkState) (consumed : List Char),
      ChunkInv st consumed →
      ChunkInv (units.foldl (chunkStep cs ov) st) (consumed ++ joinUnits units) := by
  intro units
  induction units with
  | nil =>
    intro st consumed h
    simpa [joinUnits] using h
  | cons u us ih =>
    intro st consumed h
    have hstep := chunkStep_inv cs ov st consumed u h
    have hrest := ih (chunkStep cs ov st u) (consumed ++ u) hstep
    rw [joinUnits_cons, ← List.append_assoc]
    exact hrest

/-- C5: for every input text, every positive chunk_size and every
overlap, the chunk_index values of _create_chunks are exactly
0, 1, 2, ... in order, and concatenating the chunks' contents with each
carried-back overlap region counted once (as determined by the recorded
start_char/end_char offsets) reconstructs the original text. -/
theorem chunker_index_and_coverage (text : List Char) (cs ov : Nat)
    (hcs : 0 < cs) :
    (createChunks text cs ov).map DocumentChunk.chunk_index
      = List.range (createChunks text cs ov).length ∧
    reconstructChunks (createChunks text cs ov) = text := by
  have h0 : ChunkInv initChunkState [] :=
    ⟨rfl, rfl, rfl, le_refl 0, le_refl 0, rfl⟩
  have hinv := foldl_chunkStep_inv cs ov (splitUnits text) initChunkState [] h0
  rw [List.nil_append, joinUnits_splitUnits] at hinv
  unfold createChunks reconstructChunks finishChunks
  generalize hst : (splitUnits text).foldl (chunkStep cs ov) initChunkState = st
    at hinv
  obtain ⟨h1, h2, h3, h4, h5, h6⟩ := hinv
  by_cases hc : st.current = []
  · rw [if_pos hc]
    refine ⟨h3, ?_⟩
    rw [reconstructFrom_append, hc] at h6
    simpa [joinUnits] using h6
  · rw [if_neg hc]
    constructor
    · rw [List.map_append, h3, List.length_append]
      simp [h2, List.range_succ]
    · exact h6

/-- Witness for C5 on a two-sentence text with overlap. -/
theorem chunker_index_and_coverage_witness :
    (createChunks "ab. cd".toList 3 1).map DocumentChunk.chunk_index
      = List.range (createChunks "ab. cd".toList 3 1).length ∧
    reconstructChunks (createChunks "ab. cd".toList 3 1) = "ab. cd".toList :=
  chunker_index_and_coverage "ab. cd".toList 3 1 (by decide)

theorem chunkStep_oversized_inv (cs : Nat) (U : List (List Char))
    (st : ChunkState) (s : List Char) (hs : s ∈ U)
    (h : OversizedInv cs U st) : OversizedInv cs U (chunkStep cs 0 st s) := by
  obtain ⟨hA, hB, hC⟩ := h
  unfold chunkStep
  by_cases hcond : cs < st.size + s.length ∧ st.current ≠ []
  · rw [if_pos hcond, if_neg (lt_irrefl 0)]
    refine ⟨?_, Or.inr (Or.inr ⟨s, hs, rfl⟩), by simp [joinUnits]⟩
    intro c hcmem
    rcases List.mem_append.mp hcmem with hold | hnew
    · exact hA c hold
    · have hceq : c = ⟨joinUnits st.current, st.idx, st.start,
          st.start + (joinUnits st.current).length⟩ := by
        simpa using hnew
      subst hceq
      rcases hB with hcur | hsize | ⟨u, hu, hcu⟩
      · exact absurd hcur hcond.2
      · exact Or.inl (by rw [← hC]; exact hsize)
      · refine Or.inr ?_
        rw [hcu]
        simpa [joinUnits] using hu
  · rw [if_neg hcond]
    refine ⟨hA, ?_, by simp [joinUnits, hC]⟩
    by_cases hcur : st.current = []
    · refine Or.inr (Or.inr ⟨s, hs, ?_⟩)
      rw [hcur]
      rfl
    · have hle : st.size + s.length ≤ cs := by
        rcases not_and_or.mp hcond with hlt | hne
        · omega
        · exact absurd hcur hne
      exact Or.inr (Or.inl hle)

theorem foldl_chunkStep_oversized_inv (cs : Nat) (U : List (List Char)) :
    ∀ (units : List (List Char)) (st : ChunkState),
      (∀ u ∈ units, u ∈ U) → OversizedInv cs U st →
      OversizedInv cs U (units.foldl (chunkStep cs 0) st) := by
  intro units
  induction units with
  | nil => intro st _ h; exact h
  | cons u us ih =>
    intro st hu h
    exact ih (chunkStep cs 0 st u) (fun v hv => hu v (List.mem_cons_of_mem u hv))
      (chunkStep_oversized_inv cs U st u (hu u (List.mem_cons_self u us)) h)

/-- C6 counterexample: with chunk_size 10 and overlap 2, the text
12345678.12345678.x produces a middle chunk of 18 characters made of
two sentence units, so an over-long chunk need not be a single
oversized sentence once the overlap carry-back is in play. -/
theorem oversized_multi_sentence_chunk :
    ∃ c, c ∈ createChunks "12345678.12345678.x".toList 10 2 ∧
      10 < c.content.length ∧
      c.content ∉ splitUnits "12345678.12345678.x".toList := by
  refine ⟨⟨"12345678.12345678.".toList, 1, 0, 18⟩, ?_, ?_, ?_⟩ <;> decide

/-- C6 amended: with overlap 0 the claimed bound does hold — any chunk
longer than chunk_size consists of a single sentence unit of the split;
with positive overlap the carried-back sentences can push a
multi-sentence chunk past chunk_size (see the counterexample). -/
theorem oversized_chunk_single_sentence_of_no_overlap (text : List Char)
    (cs : Nat) (c : DocumentChunk) (hc : c ∈ createChunks text cs 0)
    (hlen : cs < c.content.length) : c.content ∈ splitUnits text := by
  have h0 : OversizedInv cs (splitUnits text) initChunkState :=
    ⟨by intro c hc; exact absurd hc (List.not_mem_nil c), Or.inl rfl, rfl⟩
  have hinv := foldl_chunkStep_oversized_inv cs (splitUnits text)
    (splitUnits text) initChunkState (fun u hu => hu) h0
  unfold createChunks finishChunks at hc
  generalize hst : (splitUnits text).foldl (chunkStep cs 0) initChunkState = st
    at hinv hc
  obtain ⟨hA, hB, hC⟩ := hinv
  by_cases hcur : st.current = []
  · rw [if_pos hcur] at hc
    rcases hA c hc with hle | hmem
    · omega
    · exact hmem
  · rw [if_neg hcur] at hc
    rcases List.mem_append.mp hc with hold | hnew
    · rcases hA c hold with hle | hmem
      · omega
      · exact hmem
    · have hceq : c = ⟨joinUnits st.current, st.idx, st.start,
          st.start + (joinUnits st.current).length⟩ := by
        simpa using hnew
      subst hceq
      rcases hB with hcur2 | hsize | ⟨u, hu, hcu⟩
      · exact absurd hcur2 hcur
      · rw [hC] at hsize
        exact absurd hsize (by simpa using hlen)
      · rw [hcu]
        simpa [joinUnits] using hu

/-- Witness for the C6 amended theorem: one unsplittable five-character
text with chunk_size 3 yields one oversized chunk equal to its single
sentence unit. -/
theorem oversized_chunk_single_sentence_witness :
    ("aaaaa".toList : List Char) ∈ splitUnits "aaaaa".toList :=
  oversized_chunk_single_sentence_of_no_overlap "aaaaa".toList 3
    ⟨"aaaaa".toList, 0, 0, 5⟩ (by decide) (by decide)

/-! ## Hybrid search lemmas -/

theorem mem_insertDescBy {M : Type} (r a : ScoredResult M) :
    ∀ l, a ∈ insertDescBy r l ↔ a = r ∨ a ∈ l := by
  intro l
  induction l with
  | nil => simp [insertDescBy]
  | cons x xs ih =>
    unfold insertDescBy
    by_cases hle : r.score ≤ x.score
    · rw [if_pos hle]
      simp only [List.mem_cons, ih]
      tauto
    · rw [if_neg hle]
      simp only [List.mem_cons]

theorem pairwise_insertDescBy {M : Type} (r : ScoredResult M) :
    ∀ l, List.Pairwise (fun a b => b.score ≤ a.score) l →
      List.Pairwise (fun a b => b.score ≤ a.score) (insertDescBy r l) := by
  intro l
  induction l with
  | nil => intro _; simp [insertDescBy]
  | cons x xs ih =>
    intro h
    rw [List.pairwise_cons] at h
    obtain ⟨hx, hxs⟩ := h
    unfold insertDescBy
    by_cases hle : r.score ≤ x.score
    · rw [if_pos hle, List.pairwise_cons]
      refine ⟨?_, ih hxs⟩
      intro b hb
      rcases (mem_insertDescBy r b xs).mp hb with rfl | hbxs
      · exact hle
      · exact hx b hbxs
    · rw [if_neg hle, List.pairwise_cons]
      refine ⟨?_, List.pairwise_cons.mpr ⟨hx, hxs⟩⟩
      intro b hb
      rcases List.mem_cons.mp hb with rfl | hbxs
      · exact le_of_lt (not_le.mp hle)
      · exact le_trans (hx b hbxs) (le_of_lt (not_le.mp hle))

theorem perm_insertDescBy {M : Type} (r : ScoredResult M) :
    ∀ l, (insertDescBy r l).Perm (r :: l) := by
  intro l
  induction l with
  | nil => simp [insertDescBy]
  | cons x xs ih =>
    unfold insertDescBy
    by_cases hle : r.score ≤ x.score
    · rw [if_pos hle]
      exact (ih.cons x).trans (List.Perm.swap r x xs)
    · rw [if_neg hle]

theorem pairwise_sortDescByScore {M : Type} (l : List (ScoredResult M)) :
    List.Pairwise (fun a b => b.score ≤ a.score) (sortDescByScore l) := by
  suffices h : ∀ acc, List.Pairwise (fun a b => b.score ≤ a.score) acc →
      List.Pairwise (fun a b => b.score ≤ a.score)
        (l.foldl (fun acc r => insertDescBy r acc) acc) by
    exact h [] (List.Pairwise.nil)
  induction l with
  | nil => intro acc h; exact h
  | cons u us ih =>
    intro acc h
    exact ih (insertDescBy u acc) (pairwise_insertDescBy u acc h)

theorem perm_sortDescByScore {M : Type} (l : List (ScoredResult M)) :
    (sortDescByScore l).Perm l := by
  suffices h : ∀ acc, (l.foldl (fun acc r => insertDescBy r acc) acc).Perm
      (acc ++ l) by
    simpa using h []
  induction l with
  | nil => intro acc; simp
  | cons u us ih =>
    intro acc
    refine (ih (insertDescBy u acc)).trans ?_
    refine (List.Perm.append_right us ((perm_insertDescBy u acc))).trans ?_
    exact List.perm_middle.symm

theorem scoreCandidates_spec {M : Type} (qtoks : List String) (kb : Rat) :
    ∀ (ds : List String) (ms : List M) (xs : List Rat) (is : List String)
      (out : List (ScoredResult M)),
      scoreCandidates qtoks kb ds ms xs is = .ok out →
      ∀ r ∈ out, r.score = (1 - kb) * r.vector_score + kb * r.keyword_score ∧
        r.keyword_score = keywordScoreCode qtoks r.content ∧
        ∃ i : Nat, ds[i]? = some r.content ∧ ms[i]? = some r.metadata ∧
          is[i]? = some r.id ∧ ∃ x, xs[i]? = some x ∧
            r.vector_score = 1 - x := by
  intro ds
  induction ds with
  | nil =>
    intro ms xs is out hout r hr
    have : out = [] := by
      simpa [scoreCandidates] using hout.symm
    subst this
    exact absurd hr (List.not_mem_nil r)
  | cons d ds ih =>
    intro ms xs is out hout r hr
    cases ms with
    | nil => simp [scoreCandidates] at hout
    | cons m ms =>
      cases xs with
      | nil => simp [scoreCandidates] at hout
      | cons x xs =>
        cases is with
        | nil => simp [scoreCandidates] at hout
        | cons i is =>
          cases hrec : scoreCandidates qtoks kb ds ms xs is with
          | error err =>
            rw [scoreCandidates, hrec] at hout
            exact Except.noConfusion hout
          | ok rest =>
            rw [scoreCandidates, hrec] at hout
            injection hout with hout2
            subst hout2
            rcases List.mem_cons.mp hr with rfl | hrrest
            · exact ⟨rfl, rfl, 0, by simp, by simp, by simp, x, by simp, rfl⟩
            · obtain ⟨h1, h2, j, hdoc, hmeta, hid, y, hy, hvs⟩ :=
                ih ms xs is rest hrec r hrrest
              exact ⟨h1, h2, j + 1, by simpa using hdoc, by simpa using hmeta,
                by simpa using hid, y, by simpa using hy, hvs⟩

theorem keywordScoreCode_eq_spec (q d : String) :
    keywordScoreCode (keywordTokens q) d = keywordScoreSpec q d := by
  unfold keywordScoreCode keywordScoreSpec
  by_cases hn : (keywordTokens q).length = 0
  · have hq : keywordTokens q = [] := List.length_eq_zero.mp hn
    rw [hq]
    simp
  · have hmax : max (keywordTokens q).length 1 = (keywordTokens q).length :=
      Nat.max_eq_left (Nat.one_le_iff_ne_zero.mpr hn)
    rw [hmax]

/-- C7: when hybrid_search succeeds, its result is at most the
requested k results, sorted descending by the fused score; every result
is one of the candidates fetched by the over-fetching vector search
with two times k, carrying that candidate's content, metadata and id,
its vector score one minus the reported distance, its keyword score
the case-insensitive unique-token overlap of the query with the content
divided by the number of query tokens, and its fused score
(1 - keyword_boost) times the vector score plus keyword_boost times the
keyword score; the result list is the descending sort of the scored
candidates truncated to k, and keyword_boost defaults to three
tenths. -/
theorem hybrid_search_score_fusion {V M : Type}
    (embed : String → Except String V)
    (backend : V → Nat → Except String (QueryReply M))
    (q : String) (n : Nat) (kb : Rat) (raw : SearchFlat M)
    (res : List (ScoredResult M))
    (hraw : optimizedSearch embed backend q (n * 2) = .ok raw)
    (hres : optimizedHybridSearch embed backend q n kb = .ok res) :
    res.length ≤ n ∧
    List.Pairwise (fun a b => b.score ≤ a.score) res ∧
    (∀ r ∈ res, r.score = (1 - kb) * r.vector_score + kb * r.keyword_score ∧
      r.keyword_score = keywordScoreSpec q r.content ∧
      ∃ i : Nat, raw.documents[i]? = some r.content ∧
        raw.metadatas[i]? = some r.metadata ∧ raw.ids[i]? = some r.id ∧
        ∃ x, raw.distances[i]? = some x ∧ r.vector_score = 1 - x) ∧
    (∃ scored, scoreCandidates (keywordTokens q) kb raw.documents
        raw.metadatas raw.distances raw.ids = .ok scored ∧
      res = (sortDescByScore scored).take n ∧
      (sortDescByScore scored).Perm scored) ∧
    defaultKeywordBoost = 3 / 10 := by
  unfold optimizedHybridSearch at hres
  rw [hraw] at hres
  have hres2 : Except.bind
      (scoreCandidates (keywordTokens q) kb raw.documents raw.metadatas
        raw.distances raw.ids)
      (fun scored => Except.ok ((sortDescByScore scored).take n))
      = Except.ok res := hres
  cases hsc : scoreCandidates (keywordTokens q) kb raw.documents raw.metadatas
      raw.distances raw.ids with
  | error err =>
    rw [hsc] at hres2
    exact Except.noConfusion hres2
  | ok scored =>
    rw [hsc] at hres2
    injection hres2 with hres3
    subst hres3
    refine ⟨?_, ?_, ?_, ⟨scored, rfl, rfl, perm_sortDescByScore scored⟩, rfl⟩
    · exact List.length_take_le n _
    · exact List.Pairwise.sublist (List.take_sublist n _)
        (pairwise_sortDescByScore scored)
    · intro r hr
      have hmem : r ∈ scored := by
        have h1 : r ∈ sortDescByScore scored := List.mem_of_mem_take hr
        exact (perm_sortDescByScore scored).mem_iff.mp h1
      obtain ⟨hscore, hks, i, hdoc, hmeta, hid, x, hx, hvs⟩ :=
        scoreCandidates_spec (keywordTokens q) kb raw.documents raw.metadatas
          raw.distances raw.ids scored hsc r hmem
      exact ⟨hscore, by rw [hks, keywordScoreCode_eq_spec], i, hdoc, hmeta,
        hid, x, hx, hvs⟩

/-- Witness for C7: a one-candidate backend reply, where the scored,
sorted and truncated result is that candidate with the fused score. -/
theorem hybrid_search_score_fusion_witness :
    ([⟨"a b", (),
        (1 - defaultKeywordBoost) * (1 - 1/2) +
          defaultKeywordBoost * keywordScoreCode (keywordTokens "a b") "a b",
        1 - 1/2, keywordScoreCode (keywordTokens "a b") "a b", "r1"⟩] :
      List (ScoredResult Unit)).length ≤ 1 :=
  (hybrid_search_score_fusion (V := Unit) (fun _ => Except.ok ())
    (fun _ _ => Except.ok ⟨[["a b"]], [[()]], [[1/2]], [["r1"]]⟩)
    "a b" 1 defaultKeywordBoost ⟨["a b"], [()], [1/2], ["r1"]⟩
    [⟨"a b", (),
        (1 - defaultKeywordBoost) * (1 - 1/2) +
          defaultKeywordBoost * keywordScoreCode (keywordTokens "a b") "a b",
        1 - 1/2, keywordScoreCode (keywordTokens "a b") "a b", "r1"⟩]
    rfl rfl).1
